import Mathlib

/-!
# Verification of the README repository-info annotation tool

A shallow embedding, over `List Char`, of the Python module
`update_repo_info.py`: the GitHub repository-link scanner, the syntactic
context detector, the metadata formatter, the annotation processor, the
document-update driver, and the caching metadata fetcher.  Python strings
are modelled as `List Char` (one entry per Unicode code point, matching
Python's `str` indexing); Python's `-1`-returning `find`/`rfind` and its
negative-index slices are modelled with `Int` indices.

Modelling notes, applying throughout:
* Python `str.strip()` and the regex class `\s` accept all Unicode
  whitespace; here only the six ASCII whitespace characters are modelled
  (the documents and patterns concerned contain no exotic whitespace).
* The regex class `\w` accepts Unicode word characters; here ASCII
  alphanumerics plus underscore are modelled (GitHub owner/repo names are
  ASCII).
* `list(set(...))` iteration order in Python is unspecified; the embedding
  canonically keeps first-occurrence order.
-/

abbrev Chars := List Char

def strL (s : String) : Chars := s.data

/-- The backtick character, written via its code point. -/
def backtickChar : Char := Char.ofNat 96

/-- The double-quote character, written via its code point. -/
def dquoteChar : Char := Char.ofNat 34

/-- The single-quote character, written via its code point. -/
def squoteChar : Char := Char.ofNat 39

/-- ASCII fragment of Python's whitespace (`str.strip`, regex `\s`). -/
def isPySpace (c : Char) : Bool :=
  c = ' ' || c = '\t' || c = '\n' || c = '\r' || c = Char.ofNat 11 || c = Char.ofNat 12

/-- `s.count(c)` for a single character. -/
def countChar (c : Char) : Chars → Nat
  | [] => 0
  | x :: xs => (if x = c then 1 else 0) + countChar c xs

/-- `c in s` for a single character. -/
def hasChar (c : Char) : Chars → Bool
  | [] => false
  | x :: xs => x = c || hasChar c xs

/-- Python `s.split(sep)` for a single-character separator: always returns
at least one (possibly empty) part. -/
def pySplitChar (sep : Char) : Chars → List Chars
  | [] => [[]]
  | x :: xs =>
    if x = sep then [] :: pySplitChar sep xs
    else
      match pySplitChar sep xs with
      | [] => [[x]]
      | l :: ls => (x :: l) :: ls

/-- Python `s.strip()` (ASCII-whitespace model). -/
def pyStrip (l : Chars) : Chars :=
  ((l.dropWhile isPySpace).reverse.dropWhile isPySpace).reverse

/-- Python `s.rstrip(c)` for a one-character strip set. -/
def pyRstripChar (c : Char) (l : Chars) : Chars :=
  (l.reverse.dropWhile (fun x => x = c)).reverse

/-- Python `s.strip(chars)` for an explicit strip set. -/
def pyStripSet (s : Chars) (l : Chars) : Chars :=
  ((l.dropWhile (fun c => hasChar c s)).reverse.dropWhile (fun c => hasChar c s)).reverse

/-- Index of the first character satisfying `p`, if any. -/
def firstIdx (p : Char → Bool) : Chars → Option Nat
  | [] => Option.none
  | x :: xs => if p x then Option.some 0 else (firstIdx p xs).map (· + 1)

/-- Index of the last character satisfying `p`, if any. -/
def lastIdx (p : Char → Bool) : Chars → Option Nat
  | [] => Option.none
  | x :: xs =>
    match lastIdx p xs with
    | Option.some i => Option.some (i + 1)
    | Option.none => if p x then Option.some 0 else Option.none

/-- Index of the last occurrence of the (nonempty) substring `pat`, if any:
the core of Python `s.rfind(pat)`. -/
def lastSubIdx (pat : Chars) : Chars → Option Nat
  | [] => Option.none
  | x :: xs =>
    match lastSubIdx pat xs with
    | Option.some i => Option.some (i + 1)
    | Option.none => if pat.isPrefixOf (x :: xs) then Option.some 0 else Option.none

/-- Python's found-index convention: `-1` for "not found". -/
def optToPyIdx : Option Nat → Int
  | Option.none => -1
  | Option.some i => (i : Int)

/-- Python `s.rfind(pat)` for nonempty `pat`. -/
def pyRfindStr (l pat : Chars) : Int := optToPyIdx (lastSubIdx pat l)

/-- Python `s.rfind(c)` for a single character. -/
def pyRfindChar (l : Chars) (c : Char) : Int := optToPyIdx (lastIdx (fun x => x = c) l)

/-- Python `s.find(c)` for a single character. -/
def pyFindChar (l : Chars) (c : Char) : Int := optToPyIdx (firstIdx (fun x => x = c) l)

/-- Normalize a Python slice index: negative indices count from the end,
and everything is clamped to `[0, len]`. -/
def pyIdx (len : Nat) (i : Int) : Nat :=
  if i < 0 then ((len : Int) + i).toNat else min i.toNat len

/-- Python `l[:i]`. -/
def pySliceTo (l : Chars) (i : Int) : Chars := l.take (pyIdx l.length i)

/-- Python `l[i:]`. -/
def pySliceFrom (l : Chars) (i : Int) : Chars := l.drop (pyIdx l.length i)

/-- Python `l[a:b]`. -/
def pySlice (l : Chars) (a b : Int) : Chars :=
  (l.take (pyIdx l.length b)).drop (pyIdx l.length a)

/-! ## Context detection (`ContextDetector`) -/

/-- `UrlContext` enum from the source. -/
inductive UrlContext where
  | plain_text
  | markdown_link
  | html_attribute
  | code_block
  | inline_code
deriving DecidableEq, Repr

/-- `ContextDetector.detect_inline_code_context`: an odd number of
backticks before `pos`. -/
def detectInlineCode (content : Chars) (pos : Nat) : Bool :=
  countChar backtickChar (content.take pos) % 2 == 1

/-- A line whose stripped form starts with a triple backtick fence. -/
def fenceLine (l : Chars) : Bool := (strL "```").isPrefixOf (pyStrip l)

/-- `ContextDetector.detect_code_block_context`: fold a toggle over the
lines before `pos`. -/
def detectCodeBlock (content : Chars) (pos : Nat) : Bool :=
  (pySplitChar '\n' (content.take pos)).foldl
    (fun b line => if fenceLine line then !b else b) false

/-- `ContextDetector.detect_markdown_link_context`. -/
def detectMarkdownLink (content : Chars) (startPos endPos : Nat) : Bool :=
  let before := content.take startPos
  let bracketPos := pyRfindStr before (strL "](")
  if bracketPos = -1 then false
  else
    let after := content.drop endPos
    let parenPos := pyFindChar after ')'
    if parenPos = -1 then false
    else
      let textBetween := pySlice content bracketPos ((endPos : Int) + parenPos + 1)
      !(hasChar '\n' textBetween)

/-- Case-insensitive prefix test against a lowercase needle
(regex `re.IGNORECASE`, ASCII model). -/
def lcPrefix : Chars → Chars → Bool
  | [], _ => true
  | _ :: _, [] => false
  | n :: ns, h :: hs => (h.toLower = n) && lcPrefix ns hs

/-- Try to match the regex `needle\s*=\s*["']` at offset `i` of `before`;
on success return the end offset of the match (Python `match.end()`). -/
def matchAttrAt (before : Chars) (needle : Chars) (i : Nat) : Option Nat :=
  let rest := before.drop i
  if lcPrefix needle rest then
    let r1 := rest.drop needle.length
    let w1 := (r1.takeWhile isPySpace).length
    match r1.drop w1 with
    | '=' :: r2 =>
      let w2 := (r2.takeWhile isPySpace).length
      match r2.drop w2 with
      | q :: _ =>
        if q = dquoteChar || q = squoteChar then
          Option.some (i + needle.length + w1 + 1 + w2 + 1)
        else Option.none
      | [] => Option.none
    | _ => Option.none
  else Option.none

/-- End offset of the last match of `needle\s*=\s*["']` in `before`
(the matches of these patterns cannot overlap, so the last match of
`re.finditer` is the successful attempt with the greatest start). -/
def lastAttrEnd (before : Chars) (needle : Chars) : Option Nat :=
  (List.range (before.length + 1)).foldl
    (fun acc i =>
      match matchAttrAt before needle i with
      | Option.some e => Option.some e
      | Option.none => acc)
    Option.none

/-- `ContextDetector.detect_html_attribute_context`. -/
def detectHtmlAttribute (content : Chars) (startPos : Nat) : Bool :=
  let before := content.take startPos
  [strL "href", strL "src", strL "action"].any (fun needle =>
    match lastAttrEnd before needle with
    | Option.some attrStart =>
      let toCheck := pySlice content (attrStart : Int) (startPos : Int)
      !(hasChar dquoteChar toCheck) && !(hasChar squoteChar toCheck)
    | Option.none => false)

/-- `ContextDetector.get_url_context`: the priority cascade. -/
def getUrlContext (content : Chars) (startPos endPos : Nat) : UrlContext :=
  if detectInlineCode content startPos then UrlContext.inline_code
  else if detectCodeBlock content startPos then UrlContext.code_block
  else if detectMarkdownLink content startPos endPos then UrlContext.markdown_link
  else if detectHtmlAttribute content startPos then UrlContext.html_attribute
  else UrlContext.plain_text

/-! ## Link parsing (`RepoLinkParser`) -/

/-- The regex class `[\w.-]` (ASCII model of `\w`). -/
def isRepoNameChar (c : Char) : Bool := c.isAlphanum || c = '_' || c = '.' || c = '-'

/-- The negative-lookahead class: word characters, dot, slash, hyphen. -/
def isLookChar (c : Char) : Bool := isRepoNameChar c || c = '/'

def ghPrefix : Chars := strL "https://github.com/"

/-- Try `REPO_LINK_RE` (host literal, then two greedy `[\w.-]+` groups
separated by a slash, then a negative lookahead refusing a word character,
dot, slash or hyphen) at
the start of `s`; on success return the matched `full_url` (group 1).
Both `[\w.-]+` groups are greedy, and since the character after a maximal
run is never again in the class, backtracking can never extend a failed
attempt: the match is the maximal-run decomposition or nothing. -/
def matchRepoHere (s : Chars) : Option Chars :=
  if ghPrefix.isPrefixOf s then
    let rest := s.drop ghPrefix.length
    let owner := rest.takeWhile isRepoNameChar
    if owner = [] then Option.none
    else
      match rest.drop owner.length with
      | c0 :: rest2 =>
        if c0 = '/' then
          let repo := rest2.takeWhile isRepoNameChar
          if repo = [] then Option.none
          else
            let ok := match rest2.drop repo.length with
              | [] => true
              | c :: _ => !(isLookChar c)
            if ok then Option.some (ghPrefix ++ owner ++ '/' :: repo) else Option.none
        else Option.none
      | [] => Option.none
  else Option.none

/-- `re.finditer` over the text: leftmost matches, scanning resumes past
each (nonempty) match.  Structural recursion on a fuel bounded by the
remaining length (each step consumes at least one character). -/
def repoScanFuel : Nat → Chars → List Chars
  | 0, _ => []
  | _, [] => []
  | fuel + 1, c :: cs =>
    match matchRepoHere (c :: cs) with
    | Option.some url => url :: repoScanFuel fuel (cs.drop (url.length - 1))
    | Option.none => repoScanFuel fuel cs

def repoScan (s : Chars) : List Chars := repoScanFuel s.length s

/-- `(full_url, owner, repo)` triple. -/
abbrev RepoRef := Chars × Chars × Chars

/-- The per-match body of `parse_repo_links`: strip a trailing slash,
split on `/`, keep parts 3 and 4 when at least five parts exist. -/
def mkTriple (url : Chars) : Option RepoRef :=
  let parts := pySplitChar '/' (pyRstripChar '/' url)
  if parts.length ≥ 5 then Option.some (url, parts.getD 3 [], parts.getD 4 [])
  else Option.none

/-- First-occurrence deduplication, the canonical model of Python's
`list(set(...))` (whose order is unspecified). -/
def dedupFirst : List RepoRef → List RepoRef → List RepoRef
  | _, [] => []
  | seen, x :: xs =>
    if x ∈ seen then dedupFirst seen xs
    else x :: dedupFirst (x :: seen) xs

/-- `RepoLinkParser.parse_repo_links`. -/
def parseRepoLinks (text : Chars) : List RepoRef :=
  dedupFirst [] ((repoScan text).filterMap mkTriple)

/-! ## Metadata and formatting (`RepoInfoFetcher` result, `RepoInfoFormatter`) -/

/-- The dictionary built by `RepoInfoFetcher.fetch` on success. -/
structure Meta where
  stars : Int
  updated : Chars
deriving DecidableEq, Repr

/-- `REPO_INFO_MARK`, the invisible three-code-point marker. -/
def REPO_INFO_MARK : Chars := strL "\u200B\u200C\u200D"

def digitVal (c : Char) : Nat := c.toNat - 48

/-- Candidate parses of one numeric `strptime` field, in the backtracking
order of CPython's per-directive regexes: the two-digit alternatives come
first, then the one-digit ones. -/
def fieldCands (valid2 : Nat → Bool) (valid1 : Nat → Bool) : Chars → List (Nat × Chars)
  | a :: b :: rest =>
    (if a.isDigit && b.isDigit && valid2 (digitVal a * 10 + digitVal b) then
      [(digitVal a * 10 + digitVal b, rest)]
    else []) ++
    (if a.isDigit && valid1 (digitVal a) then [(digitVal a, b :: rest)] else [])
  | [a] => if a.isDigit && valid1 (digitVal a) then [(digitVal a, [])] else []
  | [] => []

/-- Regex `1[0-2]|0[1-9]` (two-digit month). -/
def month2ok (v : Nat) : Bool := 1 ≤ v && v ≤ 12
/-- Regex `[1-9]` (one-digit month). -/
def month1ok (v : Nat) : Bool := 1 ≤ v && v ≤ 9
/-- Regex `3[01]|[12]\d|0[1-9]` (two-digit day). -/
def day2ok (v : Nat) : Bool := 1 ≤ v && v ≤ 31
/-- Regex `[1-9]` (one-digit day). -/
def day1ok (v : Nat) : Bool := 1 ≤ v && v ≤ 9
/-- Regex `2[0-3]|[0-1]\d` (two-digit hour). -/
def hour2ok (v : Nat) : Bool := v ≤ 23
/-- Regex `\d` (one-digit hour, minute or second). -/
def onedigitok (v : Nat) : Bool := v ≤ 9
/-- Regex `[0-5]\d` (two-digit minute or second). -/
def minsec2ok (v : Nat) : Bool := v ≤ 59

/-- Parse `%H:%M:%SZ` against the remainder, requiring the whole string to
be consumed (`strptime` rejects unconverted trailing data). -/
def parseHmsZ (r : Chars) : Option Unit :=
  (fieldCands hour2ok onedigitok r).findSome? (fun hr =>
    match hr.2 with
    | ':' :: r2 =>
      (fieldCands minsec2ok onedigitok r2).findSome? (fun mi =>
        match mi.2 with
        | ':' :: r3 =>
          (fieldCands minsec2ok onedigitok r3).findSome? (fun se =>
            match se.2 with
            | ['Z'] => Option.some ()
            | _ => Option.none)
        | _ => Option.none)
    | _ => Option.none)

/-- Text-level parse of `%Y-%m-%dT%H:%M:%SZ` (CPython `%Y` is exactly four
digits), returning year, month and day. -/
def parseYmdText (u : Chars) : Option (Nat × Nat × Nat) :=
  match u with
  | y1 :: y2 :: y3 :: y4 :: '-' :: rest =>
    if y1.isDigit && y2.isDigit && y3.isDigit && y4.isDigit then
      let y := ((digitVal y1 * 10 + digitVal y2) * 10 + digitVal y3) * 10 + digitVal y4
      (fieldCands month2ok month1ok rest).findSome? (fun mo =>
        match mo.2 with
        | '-' :: r2 =>
          (fieldCands day2ok day1ok r2).findSome? (fun d =>
            match d.2 with
            | 'T' :: r3 =>
              match parseHmsZ r3 with
              | Option.some _ => Option.some (y, mo.1, d.1)
              | Option.none => Option.none
            | _ => Option.none)
        | _ => Option.none)
    else Option.none
  | _ => Option.none

def isLeapYear (y : Nat) : Bool := (y % 4 == 0 && y % 100 != 0) || y % 400 == 0

def daysInMonth (y mo : Nat) : Nat :=
  if mo = 2 then (if isLeapYear y then 29 else 28)
  else if mo = 4 || mo = 6 || mo = 9 || mo = 11 then 30
  else 31

/-- `datetime.strptime(u, '%Y-%m-%dT%H:%M:%SZ')`, as far as the code
observes it: the calendar date on success.  The `datetime` constructor
additionally requires `MINYEAR <= year` and a day valid for the month;
its `ValueError` is swallowed by the `except` clause. -/
def strptimeYmd (u : Chars) : Option (Nat × Nat × Nat) :=
  match parseYmdText u with
  | Option.some (y, mo, d) =>
    if 1 ≤ y ∧ d ≤ daysInMonth y mo then Option.some (y, mo, d) else Option.none
  | Option.none => Option.none

/-- Two-digit zero padding of `strftime` `%m` and `%d`. -/
def pad2 (n : Nat) : Chars := if n < 10 then '0' :: (toString n).data else (toString n).data

/-- `strftime('%Y-%m-%d')` on the parsed date (glibc prints `%Y` without
padding; all four-digit inputs round-trip their digits). -/
def fmtDate (y mo d : Nat) : Chars :=
  (toString y).data ++ '-' :: pad2 mo ++ '-' :: pad2 d

/-- The date-field normalisation inside `RepoInfoFormatter.format_info`:
empty stays empty, parseable timestamps are reformatted to the calendar
date, anything else passes through verbatim. -/
def formatDateField (u : Chars) : Chars :=
  if u = [] then u
  else
    match strptimeYmd u with
    | Option.some (y, mo, d) => fmtDate y mo d
    | Option.none => u

/-- `RepoInfoFormatter.format_info` (with the default marker).  `None`
metadata gives the empty string; the success dictionary always has both
keys, so Python's falsiness test on the dict coincides with `None`. -/
def formatInfo (info : Option Meta) : Chars :=
  match info with
  | Option.none => []
  | Option.some m =>
    strL "(⭐ " ++ (toString m.stars).data ++ strL ", ⏰ " ++
      formatDateField m.updated ++ strL ")" ++ REPO_INFO_MARK

/-! ## Annotation processing (`RepoInfoProcessor`) -/

/-- The `UrlMatch` dataclass. -/
structure UrlMatch where
  start_pos : Nat
  end_pos : Nat
  url : Chars
  owner : Chars
  repo : Chars
  context : UrlContext
deriving DecidableEq, Repr

/-- Start offsets of the non-overlapping literal occurrences of `needle`
(`re.finditer(re.escape(full_url), content)`).  `i` is the offset of the
current suffix.  The needles used are URLs and hence nonempty. -/
def literalOccsFuel (needle : Chars) : Nat → Chars → Nat → List Nat
  | 0, _, _ => []
  | _, [], _ => []
  | fuel + 1, c :: cs, i =>
    if needle.isPrefixOf (c :: cs) ∧ needle ≠ [] then
      i :: literalOccsFuel needle fuel (cs.drop (needle.length - 1)) (i + needle.length)
    else literalOccsFuel needle fuel cs (i + 1)

def literalOccsAux (needle : Chars) (s : Chars) (i : Nat) : List Nat :=
  literalOccsFuel needle s.length s i

/-- Stable insertion keeping `start_pos` descending: an element falls
after every earlier element with a greater-or-equal key, which is exactly
Python's stable `sorted(..., reverse=True)`. -/
def insertDesc (x : UrlMatch) : List UrlMatch → List UrlMatch
  | [] => [x]
  | y :: ys => if x.start_pos ≤ y.start_pos then y :: insertDesc x ys else x :: y :: ys

def sortByStartDesc (l : List UrlMatch) : List UrlMatch :=
  l.foldl (fun acc x => insertDesc x acc) []

/-- The collection loop of `RepoInfoProcessor.find_url_matches`, with its
`seen_urls` set. -/
def buildMatches (content : Chars) : List RepoRef → List Chars → List UrlMatch
  | [], _ => []
  | (url, owner, repo) :: rest, seen =>
    if url ∈ seen then buildMatches content rest seen
    else
      ((literalOccsAux url content 0).map (fun i =>
        { start_pos := i, end_pos := i + url.length, url := url, owner := owner,
          repo := repo, context := getUrlContext content i (i + url.length) })) ++
      buildMatches content rest (url :: seen)

/-- `RepoInfoProcessor.find_url_matches`. -/
def findUrlMatches (content : Chars) (links : List RepoRef) : List UrlMatch :=
  sortByStartDesc (buildMatches content links [])

/-- Scan for the first close paren reachable without crossing a newline:
the lazy `.*?\)` of the existing-info regex (`.` does not match `\n`). -/
def scanCloseParen : Chars → Option Nat
  | [] => Option.none
  | c :: cs =>
    if c = ')' then Option.some 0
    else if c = '\n' then Option.none
    else (scanCloseParen cs).map (· + 1)

/-- `RepoInfoProcessor.extract_existing_info`: match the anchored regex
whitespace-run, literal open paren and star, lazy body up to a close
paren, optional marker, and return the matched text and its length. -/
def extractExistingInfo (content : Chars) (urlEnd : Nat) : Chars × Nat :=
  let remaining := content.drop urlEnd
  let ws := remaining.takeWhile isPySpace
  match remaining.drop ws.length with
  | '(' :: '⭐' :: body =>
    (match scanCloseParen body with
     | Option.some j =>
       let core := ws ++ '(' :: '⭐' :: body.take (j + 1)
       let matched :=
         if REPO_INFO_MARK.isPrefixOf (body.drop (j + 1)) then core ++ REPO_INFO_MARK
         else core
       (matched, matched.length)
     | Option.none => ([], 0))
  | _ => ([], 0)

/-- The fetch results visible to the processor, as a pure map: by the
fetcher's caching contract (see `fetch` below) every call for the same
owner/repo during one run returns the same value, so the processor is
modelled against that per-run map directly. -/
abbrev InfoOracle := Chars → Chars → Option Meta

/-- `RepoInfoProcessor._process_plain_text_url`. -/
def processPlainTextUrl (oracle : InfoOracle) (content : Chars) (m : UrlMatch) :
    Chars × Bool :=
  let infoStr := formatInfo (oracle m.owner m.repo)
  let ex := extractExistingInfo content m.end_pos
  if ex.1 ≠ [] then
    let replacement := if infoStr ≠ [] then m.url ++ ' ' :: infoStr else m.url
    (content.take m.start_pos ++ replacement ++ content.drop (m.end_pos + ex.2),
     !infoStr.isEmpty)
  else if infoStr ≠ [] then
    (content.take m.end_pos ++ ' ' :: infoStr ++ content.drop m.end_pos, true)
  else (content, false)

/-- `RepoInfoProcessor._process_markdown_link`.  The slice indices follow
the Python source, including its `-1` not-found convention inside
slices. -/
def processMarkdownLink (oracle : InfoOracle) (content : Chars) (m : UrlMatch) :
    Chars × Bool :=
  let infoStr := formatInfo (oracle m.owner m.repo)
  if infoStr = [] then (content, false)
  else
    let before := content.take m.start_pos
    let bracketPos : Int := pyRfindStr before (strL "](")
    let textStart : Int := pyRfindChar (pySliceTo before bracketPos) '[' + 1
    let after := content.drop m.end_pos
    let parenPos : Int := pyFindChar after ')'
    if textStart > 0 ∧ parenPos ≠ -1 then
      let currentText := pySlice content textStart bracketPos
      if ¬ hasChar '⭐' currentText ∧ infoStr ≠ [] then
        let newText := currentText ++ ' ' :: pyStripSet (strL "()") infoStr
        (pySliceTo content textStart ++ newText ++
          pySlice content bracketPos ((m.end_pos : Int) + parenPos + 1) ++
          pySliceFrom content ((m.end_pos : Int) + parenPos + 1), true)
      else (content, false)
    else (content, false)

/-- `RepoInfoProcessor.process_url_match`: skip the excluded contexts,
dispatch markdown links, default to plain text. -/
def processUrlMatch (oracle : InfoOracle) (content : Chars) (m : UrlMatch) :
    Chars × Bool :=
  if m.context = UrlContext.code_block ∨ m.context = UrlContext.inline_code ∨
      m.context = UrlContext.html_attribute then (content, false)
  else if m.context = UrlContext.markdown_link then processMarkdownLink oracle content m
  else processPlainTextUrl oracle content m

/-! ## Driver (`ReadmeUpdater.update_readme`, `main`) -/

/-- The per-match loop of `update_readme`: the processed content is only
kept, and the URL only recorded, when the processor reports an update. -/
def processMatches (oracle : InfoOracle) : Chars → List UrlMatch → Chars × List Chars
  | content, [] => (content, [])
  | content, m :: ms =>
    let step := processUrlMatch oracle content m
    if step.2 then
      let rest := processMatches oracle step.1 ms
      (rest.1, m.url :: rest.2)
    else processMatches oracle content ms

/-- The pure content-transformation core of `ReadmeUpdater.update_readme`:
parse links, find and sort occurrences, process them in descending
start-offset order; return the final content and the recorded URLs. -/
def updateContentPure (oracle : InfoOracle) (content : Chars) : Chars × List Chars :=
  let links := parseRepoLinks content
  if links = [] then (content, [])
  else processMatches oracle content (findUrlMatches content links)

/-- `update_readme` writes the file back exactly when the resulting
content differs from what was read. -/
def wouldWrite (oracle : InfoOracle) (content : Chars) : Bool :=
  (updateContentPure oracle content).1 ≠ content

/-- The downstream publishing actions of `main`. -/
inductive GitAction where
  | commitPush
  | createPR
deriving DecidableEq, Repr

/-- The dispatch of `main` after `update_readme` returns: no publishing
action at all when the updated-links list is empty; otherwise direct
commit-and-push in `direct` mode, a pull request in `pr` mode when both a
repository name and a token are configured, and nothing (an error log)
otherwise. -/
def mainPublishAction (updatedLinks : List Chars) (mode : Chars)
    (repoFullName : Option Chars) (token : Option Chars) : Option GitAction :=
  if updatedLinks = [] then Option.none
  else if mode = strL "direct" then Option.some GitAction.commitPush
  else if mode = strL "pr" ∧ repoFullName.isSome ∧ token.isSome then
    Option.some GitAction.createPR
  else Option.none

/-! ## Metadata fetching (`RepoInfoFetcher.fetch`) -/

/-- The fetcher's per-run cache. -/
structure FetchState where
  cache : List (Chars × Option Meta)
deriving DecidableEq, Repr

def lookupCache : List (Chars × Option Meta) → Chars → Option (Option Meta)
  | [], _ => Option.none
  | (k, v) :: rest, key => if k = key then Option.some v else lookupCache rest key

/-- `RepoInfoFetcher.fetch`, with the network abstracted as `oracle`
(`Option.none` standing for any `requests.RequestException`, which the
code turns into a cached `None`).  The third component counts outbound
requests issued by this call. -/
def fetch (oracle : Chars → Option Meta) (st : FetchState) (owner repo : Chars) :
    Option Meta × FetchState × Nat :=
  let key := owner ++ '/' :: repo
  match lookupCache st.cache key with
  | Option.some v => (v, st, 0)
  | Option.none => (oracle key, ⟨(key, oracle key) :: st.cache⟩, 1)

/-! ## Spec-side characterisations and concrete claim inputs -/

/-- Spec wording for inline-code context: an odd number of backticks
strictly before the start offset. -/
def oddBackticksBefore (content : Chars) (s : Nat) : Prop :=
  Odd (countChar backtickChar (content.take s))

/-- Spec wording for code-block context: an odd number of lines before the
start offset whose stripped form begins with a triple-backtick fence. -/
def oddFencesBefore (content : Chars) (s : Nat) : Prop :=
  Odd ((pySplitChar '\n' (content.take s)).countP fenceLine)

/-- Spec wording for markdown-link context: a close-bracket-open-paren
pair found backward from the start, a close paren found forward from the
end, and no newline anywhere between them. -/
def mdLinkSpec (content : Chars) (s e : Nat) : Prop :=
  ∃ b p, lastSubIdx (strL "](") (content.take s) = Option.some b ∧
    firstIdx (fun c => c = ')') (content.drop e) = Option.some p ∧
    ¬ '\n' ∈ pySlice content (b : Int) ((e : Int) + (p : Int) + 1)

/-- Fetch results for the repositories `a/b` (1 star) and `a/bc`
(2 stars), both last updated `2024-01-02T03:04:05Z`. -/
def oracleAB : InfoOracle := fun o r =>
  if o = strL "a" ∧ r = strL "b" then Option.some ⟨1, strL "2024-01-02T03:04:05Z"⟩
  else if o = strL "a" ∧ r = strL "bc" then Option.some ⟨2, strL "2024-01-02T03:04:05Z"⟩
  else Option.none

/-- Fetch results for `acme/widget`: 42 stars, updated
`2024-01-02T03:04:05Z`. -/
def oracleWidget : InfoOracle := fun o r =>
  if o = strL "acme" ∧ r = strL "widget" then
    Option.some ⟨42, strL "2024-01-02T03:04:05Z"⟩
  else Option.none

/-- Every fetch fails (`requests.RequestException` on each request). -/
def oracleFail : InfoOracle := fun _ _ => Option.none

def urlAB : Chars := strL "https://github.com/a/b"

/-- A document whose plain-text repository URL already carries a (legacy,
unmarked) annotation, for the failed-fetch stripping scenario. -/
def docFailureStrip : Chars := strL "https://github.com/a/b (⭐ 1)"

/-- The occurrence of `urlAB` in `docFailureStrip`, as
`find_url_matches` builds it. -/
def failureStripMatch : UrlMatch :=
  { start_pos := 0, end_pos := 22, url := urlAB, owner := strL "a", repo := strL "b",
    context := UrlContext.plain_text }

/-- The markdown-link example document of the specification. -/
def docMarkdownExample : Chars :=
  strL "See [project](https://github.com/acme/widget) for details."

/-- What the run actually produces on `docMarkdownExample`: note the stray
close paren left in the link text before the marker. -/
def markdownActualOut : Chars :=
  strL "See [project ⭐ 42, ⏰ 2024-01-02)\u200B\u200C\u200D](https://github.com/acme/widget) for details."

/-- The output the specification describes: the annotation appended to the
link text in parenthesis-less form, marker appended invisibly. -/
def markdownIntendedOut : Chars :=
  strL "See [project ⭐ 42, ⏰ 2024-01-02\u200B\u200C\u200D](https://github.com/acme/widget) for details."

/-- A document naming two repositories where one repository name is a
prefix of the other. -/
def docPrefixPair : Chars := strL "https://github.com/a/b and https://github.com/a/bc"

/-- The first run's output on `docPrefixPair`. -/
def prefixPairRun1 : Chars := (updateContentPure oracleAB docPrefixPair).1

/-- A document whose URL already carries exactly the canonical marked
annotation that the current metadata formats to. -/
def docAnnotated : Chars :=
  strL "https://github.com/a/b (⭐ 1, ⏰ 2024-01-02)\u200B\u200C\u200D"

/-- A document with the same repository URL at two plain-text
occurrences. -/
def docTwice : Chars := strL "https://github.com/a/b and https://github.com/a/b"

/-- An occurrence classified inside a code block, for exercising the
skip rule. -/
def skipMatchExample : UrlMatch :=
  { start_pos := 0, end_pos := 22, url := urlAB, owner := strL "a", repo := strL "b",
    context := UrlContext.code_block }

/-- A network where every request fails, keyed like the fetcher cache. -/
def netFail : Chars → Option Meta := fun _ => Option.none

def emptyFetchState : FetchState := ⟨[]⟩

/-! ## General lemmas about the helpers -/

set_option maxRecDepth 40000

theorem hasChar_iff_mem (c : Char) : ∀ l : Chars, hasChar c l = true ↔ c ∈ l := by
  intro l
  induction l with
  | nil => simp [hasChar]
  | cons x xs ih =>
    simp only [hasChar, Bool.or_eq_true, decide_eq_true_eq, List.mem_cons, ih]
    constructor
    · rintro (h | h)
      · exact Or.inl h.symm
      · exact Or.inr h
    · rintro (h | h)
      · exact Or.inl h.symm
      · exact Or.inr h

theorem isPrefixOf_eq_append : ∀ {p l : Chars}, p.isPrefixOf l = true →
    l = p ++ l.drop p.length := by
  intro p
  induction p with
  | nil => intro l _; simp
  | cons a as ih =>
    intro l h
    cases l with
    | nil => simp [List.isPrefixOf] at h
    | cons b bs =>
      simp only [List.isPrefixOf, Bool.and_eq_true, beq_iff_eq] at h
      obtain ⟨rfl, h2⟩ := h
      simpa using congrArg (a :: ·) (ih h2)

theorem drop_takeWhile_length (p : Char → Bool) : ∀ l : Chars,
    l.drop (l.takeWhile p).length = l.dropWhile p := by
  intro l
  induction l with
  | nil => simp
  | cons x xs ih =>
    by_cases hx : p x
    · simp [List.takeWhile_cons, List.dropWhile_cons, hx, ih]
    · simp [List.takeWhile_cons, List.dropWhile_cons, hx]

theorem mem_takeWhile_sat (p : Char → Bool) : ∀ (l : Chars) (x : Char),
    x ∈ l.takeWhile p → p x = true := by
  intro l
  induction l with
  | nil => simp
  | cons a as ih =>
    intro x hx
    by_cases ha : p a
    · rw [List.takeWhile_cons, if_pos ha] at hx
      rcases List.mem_cons.mp hx with rfl | hx
      · exact ha
      · exact ih x hx
    · rw [List.takeWhile_cons, if_neg ha] at hx
      simp at hx

theorem foldl_fence_toggle : ∀ (l : List Chars) (b : Bool),
    l.foldl (fun acc line => if fenceLine line then !acc else acc) b
      = (b ^^ (l.countP fenceLine % 2 == 1)) := by
  intro l
  induction l with
  | nil => intro b; simp [List.countP_nil]
  | cons x xs ih =>
    intro b
    rw [List.foldl_cons]
    by_cases hx : fenceLine x
    · rw [if_pos hx, ih, List.countP_cons, if_pos hx]
      rcases Nat.mod_two_eq_zero_or_one (xs.countP fenceLine) with h2 | h2
      · have h3 : (xs.countP fenceLine + 1) % 2 = 1 := by omega
        rw [h2, h3]; cases b <;> rfl
      · have h3 : (xs.countP fenceLine + 1) % 2 = 0 := by omega
        rw [h2, h3]; cases b <;> rfl
    · rw [if_neg hx, ih, List.countP_cons, if_neg hx, Nat.add_zero]

theorem detectInlineCode_iff (content : Chars) (s : Nat) :
    detectInlineCode content s = true ↔ oddBackticksBefore content s := by
  unfold detectInlineCode oddBackticksBefore
  rw [Nat.odd_iff, beq_iff_eq]

theorem detectCodeBlock_iff (content : Chars) (s : Nat) :
    detectCodeBlock content s = true ↔ oddFencesBefore content s := by
  unfold detectCodeBlock oddFencesBefore
  rw [foldl_fence_toggle, Bool.false_xor, Nat.odd_iff, beq_iff_eq]

theorem detectMarkdownLink_iff (content : Chars) (s e : Nat) :
    detectMarkdownLink content s e = true ↔ mdLinkSpec content s e := by
  unfold detectMarkdownLink mdLinkSpec
  cases hb : lastSubIdx (strL "](") (content.take s) with
  | none => simp [pyRfindStr, hb, optToPyIdx]
  | some b =>
    have hb1 : ((b : Nat) : Int) ≠ -1 := by omega
    cases hp : firstIdx (fun c => c = ')') (content.drop e) with
    | none => simp [pyRfindStr, pyFindChar, hb, hp, optToPyIdx]
    | some p =>
      have hp1 : ((p : Nat) : Int) ≠ -1 := by omega
      simp only [pyRfindStr, pyFindChar, hb, hp, optToPyIdx, if_neg hb1, if_neg hp1,
        Option.some.injEq]
      constructor
      · intro h
        refine ⟨b, p, rfl, rfl, fun hmem => ?_⟩
        rw [← hasChar_iff_mem] at hmem
        rw [hmem] at h
        simp at h
      · rintro ⟨b2, p2, hb2, hp2, hno⟩
        cases hb2
        cases hp2
        rw [Bool.not_eq_true']
        exact Bool.eq_false_iff.mpr (fun htrue => hno ((hasChar_iff_mem _ _).mp htrue))

/-- C6: `get_url_context` is a pure total function deciding exactly one
`UrlContext` in the fixed priority order: inline code (odd backtick count
before the start) first, then code block (odd number of earlier lines
whose stripped form starts with a fence), then markdown link (a
close-bracket-open-paren found backward, a close paren found forward, no
newline between), then html attribute, else plain text. -/
theorem c6_context_priority (content : Chars) (s e : Nat) :
    (getUrlContext content s e = UrlContext.inline_code ↔ oddBackticksBefore content s) ∧
    (getUrlContext content s e = UrlContext.code_block ↔
      (¬ oddBackticksBefore content s ∧ oddFencesBefore content s)) ∧
    (getUrlContext content s e = UrlContext.markdown_link ↔
      (¬ oddBackticksBefore content s ∧ ¬ oddFencesBefore content s ∧
        mdLinkSpec content s e)) ∧
    (getUrlContext content s e = UrlContext.html_attribute ↔
      (¬ oddBackticksBefore content s ∧ ¬ oddFencesBefore content s ∧
        ¬ mdLinkSpec content s e ∧ detectHtmlAttribute content s = true)) ∧
    (getUrlContext content s e = UrlContext.plain_text ↔
      (¬ oddBackticksBefore content s ∧ ¬ oddFencesBefore content s ∧
        ¬ mdLinkSpec content s e ∧ ¬ detectHtmlAttribute content s = true)) := by
  have e1 := detectInlineCode_iff content s
  have e2 := detectCodeBlock_iff content s
  have e3 := detectMarkdownLink_iff content s e
  simp only [getUrlContext]
  by_cases h1 : oddBackticksBefore content s <;>
    by_cases h2 : oddFencesBefore content s <;>
      by_cases h3 : mdLinkSpec content s e <;>
        by_cases h4 : detectHtmlAttribute content s = true <;>
          simp [e1, e2, e3, h1, h2, h3, h4]

/-- C5: an occurrence whose detected context is a code block, inline code
or an html attribute is never edited: `process_url_match` returns the
document unchanged and reports no update. -/
theorem c5_skip_contexts_unchanged (oracle : InfoOracle) (content : Chars)
    (m : UrlMatch)
    (h : m.context = UrlContext.code_block ∨ m.context = UrlContext.inline_code ∨
      m.context = UrlContext.html_attribute) :
    processUrlMatch oracle content m = (content, false) := by
  unfold processUrlMatch
  rw [if_pos h]

/-- Witness for C5 at a concrete code-block occurrence. -/
theorem c5_skip_contexts_unchanged_witness :
    (skipMatchExample.context = UrlContext.code_block ∨
      skipMatchExample.context = UrlContext.inline_code ∨
      skipMatchExample.context = UrlContext.html_attribute) ∧
    processUrlMatch oracleFail docTwice skipMatchExample = (docTwice, false) :=
  ⟨Or.inl rfl,
    c5_skip_contexts_unchanged oracleFail docTwice skipMatchExample (Or.inl rfl)⟩

/-- C9: the first `fetch` for an uncached owner/repo key issues exactly
one outbound request and caches the outcome — the oracle's value on
success, `None` on any transport or HTTP error — and every later `fetch`
for the same key returns that cached result with no further request, so a
failure is sticky for the run; calls on an already-cached key never issue
a request. -/
theorem c9_fetch_caching (oracle : Chars → Option Meta) (st : FetchState)
    (o r : Chars)
    (h : lookupCache st.cache (o ++ '/' :: r) = Option.none) :
    (fetch oracle st o r).2.2 = 1 ∧
    (fetch oracle st o r).1 = oracle (o ++ '/' :: r) ∧
    lookupCache (fetch oracle st o r).2.1.cache (o ++ '/' :: r) =
      Option.some ((fetch oracle st o r).1) ∧
    fetch oracle (fetch oracle st o r).2.1 o r =
      ((fetch oracle st o r).1, (fetch oracle st o r).2.1, 0) ∧
    (∀ (st2 : FetchState) (v : Option Meta),
      lookupCache st2.cache (o ++ '/' :: r) = Option.some v →
        fetch oracle st2 o r = (v, st2, 0)) := by
  refine ⟨?_, ?_, ?_, ?_, ?_⟩
  · simp [fetch, h]
  · simp [fetch, h]
  · simp [fetch, h, lookupCache]
  · simp [fetch, h, lookupCache]
  · intro st2 v hv
    simp [fetch, hv]

/-- Witness for C9: an empty cache and an always-failing network. -/
theorem c9_fetch_caching_witness :
    lookupCache emptyFetchState.cache (strL "a" ++ '/' :: strL "b") = Option.none ∧
    (fetch netFail emptyFetchState (strL "a") (strL "b")).2.2 = 1 ∧
    (fetch netFail emptyFetchState (strL "a") (strL "b")).1 = Option.none :=
  ⟨rfl,
    (c9_fetch_caching netFail emptyFetchState (strL "a") (strL "b") rfl).1,
    (c9_fetch_caching netFail emptyFetchState (strL "a") (strL "b") rfl).2.1⟩

/-- C8: `format_info` returns the empty string exactly for a failed fetch;
otherwise it renders the star count and the date field inside parentheses
with the invisible marker appended directly after the close paren (no
separating space), where the date is reformatted to `%Y-%m-%d` when the
timestamp parses, passed through verbatim when it does not, and empty when
absent. -/
theorem c8_formatter :
    (∀ info : Option Meta, formatInfo info = [] ↔ info = Option.none) ∧
    (∀ md : Meta, formatInfo (Option.some md) =
      '(' :: '⭐' :: ' ' :: ((toString md.stars).data ++
        (',' :: ' ' :: '⏰' :: ' ' ::
          (formatDateField md.updated ++ (')' :: REPO_INFO_MARK))))) ∧
    (∀ (u : Chars) (y mo d : Nat), strptimeYmd u = Option.some (y, mo, d) →
      formatDateField u = fmtDate y mo d) ∧
    (∀ u : Chars, strptimeYmd u = Option.none → formatDateField u = u) ∧
    (formatDateField [] = [] ∧
      strptimeYmd (strL "2024-01-02T03:04:05Z") = Option.some (2024, 1, 2) ∧
      fmtDate 2024 1 2 = strL "2024-01-02" ∧
      strptimeYmd (strL "not a timestamp") = Option.none) := by
  refine ⟨?_, ?_, ?_, ?_, by decide, by decide, by decide, by decide⟩
  · intro info
    cases info with
    | none => simp [formatInfo]
    | some md => simp [formatInfo, strL, REPO_INFO_MARK]
  · intro md
    simp only [formatInfo, List.append_assoc]
    rfl
  · intro u y mo d h
    have hu : u ≠ [] := by
      intro hnil
      rw [hnil] at h
      simp [strptimeYmd, parseYmdText] at h
    simp [formatDateField, hu, h]
  · intro u h
    by_cases hu : u = [] <;> simp [formatDateField, hu, h]

/-- Witness for C8 at a malformed and at a parseable timestamp. -/
theorem c8_formatter_witness :
    formatDateField (strL "not a timestamp") = strL "not a timestamp" ∧
    formatDateField (strL "2024-01-02T03:04:05Z") = strL "2024-01-02" := by
  constructor
  · exact c8_formatter.2.2.2.1 (strL "not a timestamp") (by decide)
  · rw [c8_formatter.2.2.1 (strL "2024-01-02T03:04:05Z") 2024 1 2 (by decide)]
    decide

/-- C4 (amended): a URL is recorded as updated only when the formatted
metadata is non-empty — in particular a failure strip is never recorded —
and for a plain-text occurrence it is recorded exactly when the formatted
metadata is non-empty, even when the rewritten text happens to equal the
existing text; the driver attempts a publishing action for a non-empty
updated-links list exactly in its configured modes, and never for an
empty list. -/
theorem c4_recording_rule :
    (∀ (oracle : InfoOracle) (content : Chars) (m : UrlMatch),
      (processUrlMatch oracle content m).2 = true →
        formatInfo (oracle m.owner m.repo) ≠ []) ∧
    (∀ (oracle : InfoOracle) (content : Chars) (m : UrlMatch),
      m.context = UrlContext.plain_text →
        ((processUrlMatch oracle content m).2 = true ↔
          formatInfo (oracle m.owner m.repo) ≠ [])) ∧
    (∀ (updated : List Chars) (rn tk : Option Chars),
      (mainPublishAction updated (strL "direct") rn tk).isSome ↔ updated ≠ []) ∧
    (∀ (mode : Chars) (rn tk : Option Chars),
      mainPublishAction [] mode rn tk = Option.none) := by
  refine ⟨?_, ?_, ?_, ?_⟩
  · intro oracle content m h
    unfold processUrlMatch at h
    by_cases hskip : m.context = UrlContext.code_block ∨
        m.context = UrlContext.inline_code ∨ m.context = UrlContext.html_attribute
    · rw [if_pos hskip] at h
      simp at h
    · rw [if_neg hskip] at h
      cases hinfo : formatInfo (oracle m.owner m.repo) with
      | nil =>
        by_cases hmd : m.context = UrlContext.markdown_link
        · rw [if_pos hmd] at h
          simp [processMarkdownLink, hinfo] at h
        · rw [if_neg hmd] at h
          simp only [processPlainTextUrl, hinfo] at h
          split at h <;> simp at h
      | cons a l => simp
  · intro oracle content m hctx
    unfold processUrlMatch
    rw [if_neg (by simp [hctx]), if_neg (by simp [hctx])]
    cases hinfo : formatInfo (oracle m.owner m.repo) with
    | nil =>
      simp only [processPlainTextUrl, hinfo, ne_eq, not_true_eq_false, iff_false]
      split <;> simp
    | cons a l =>
      simp only [processPlainTextUrl, hinfo]
      by_cases hex : (extractExistingInfo content m.end_pos).1 ≠ [] <;>
        simp [hex]
  · intro updated rn tk
    by_cases hu : updated = [] <;> simp [mainPublishAction, hu]
  · intro mode rn tk
    simp [mainPublishAction]

/-- Witness for C4 (amended) at a concrete plain-text occurrence. -/
theorem c4_recording_rule_witness :
    failureStripMatch.context = UrlContext.plain_text ∧
    ((processUrlMatch oracleAB docFailureStrip failureStripMatch).2 = true ↔
      formatInfo (oracleAB failureStripMatch.owner failureStripMatch.repo) ≠ []) :=
  ⟨rfl, c4_recording_rule.2.1 oracleAB docFailureStrip failureStripMatch rfl⟩

/-- C4 counterexample: on a document already carrying exactly the
annotation the current metadata formats to, the run rewrites the
occurrence to an identical document — a non-change — yet still records the
URL in the returned updated-links list, refuting "recorded if and only if
the edit is a non-identity text change". -/
theorem c4_identity_change_recorded :
    (updateContentPure oracleAB docAnnotated).1 = docAnnotated ∧
    (updateContentPure oracleAB docAnnotated).2 = [urlAB] := by
  constructor
  · decide
  · decide

/-- C10: the updated-links list has one entry per rewritten occurrence,
not one per distinct repository: on a document with the same repository
URL at two plain-text occurrences the run returns the URL twice; in
general the recorded list is a sublist of the processed occurrences' URLs
(one potential entry per occurrence). -/
theorem c10_per_occurrence_updates :
    (updateContentPure oracleAB docTwice).2 = [urlAB, urlAB] ∧
    ∀ (oracle : InfoOracle) (content : Chars) (ms : List UrlMatch),
      List.Sublist (processMatches oracle content ms).2
        (ms.map (fun m => m.url)) := by
  constructor
  · decide
  · intro oracle content ms
    induction ms generalizing content with
    | nil => simp [processMatches]
    | cons m rest ih =>
      simp only [processMatches, List.map_cons]
      by_cases hs : (processUrlMatch oracle content m).2 = true
      · simp only [hs, if_true]
        exact List.Sublist.cons₂ _ (ih _)
      · simp only [hs, if_false]
        exact List.Sublist.cons _ (ih _)

/-- C1: when the fetch for a plain-text URL carrying an annotation fails,
the processor does compute the stripped text (the bare URL) but reports
`was_updated = False`, and the driver then discards that content change:
the run returns the document unchanged, performs no write, and the
annotation is NOT removed — contradicting the claim. -/
theorem c1_failed_fetch_strip_discarded :
    updateContentPure oracleFail docFailureStrip = (docFailureStrip, []) ∧
    wouldWrite oracleFail docFailureStrip = false ∧
    processPlainTextUrl oracleFail docFailureStrip failureStripMatch =
      (urlAB, false) := by
  refine ⟨by decide, by decide, by decide⟩

/-- C2: on the specification's markdown-link example the code leaves a
stray visible close paren in the link text — `strip('()')` cannot remove
the close paren because the invisible marker follows it — so the produced
link text is `project ⭐ 42, ⏰ 2024-01-02)` followed by the marker, not
the parenthesis-less text the claim describes. -/
theorem c2_markdown_stray_paren :
    updateContentPure oracleWidget docMarkdownExample =
      (markdownActualOut, [strL "https://github.com/acme/widget"]) ∧
    markdownActualOut ≠ markdownIntendedOut := by
  refine ⟨by decide, by decide⟩

/-- C3: the annotation process is not idempotent: on a document linking
two repositories where one name is a prefix of the other, the second run
(with the same fetch results) produces output different from the first
run's output and performs a file write. -/
theorem c3_second_run_not_idempotent :
    (updateContentPure oracleAB prefixPairRun1).1 ≠ prefixPairRun1 ∧
    wouldWrite oracleAB prefixPairRun1 = true := by
  refine ⟨by decide, by decide⟩

/-- Soundness of a single regex attempt: a successful `matchRepoHere`
yields the host prefix, a nonempty owner and repo over the name class,
`s` decomposes as the match followed by the unconsumed tail, and the
negative lookahead holds at the tail's head. -/
theorem matchRepoHere_sound : ∀ {s url : Chars},
    matchRepoHere s = Option.some url →
    ∃ owner repo tail,
      url = ghPrefix ++ owner ++ '/' :: repo ∧
      s = url ++ tail ∧
      owner ≠ [] ∧ repo ≠ [] ∧
      (∀ c ∈ owner, isRepoNameChar c = true) ∧
      (∀ c ∈ repo, isRepoNameChar c = true) ∧
      (∀ c ∈ tail.head?, isLookChar c = false) := by
  intro s url h
  simp only [matchRepoHere] at h
  split at h
  case isFalse => exact absurd h (by simp)
  case isTrue hpre =>
    split at h
    case isTrue => exact absurd h (by simp)
    case isFalse ho =>
      split at h
      case h_2 => exact absurd h (by simp)
      case h_1 c0 rest2 heq =>
        split at h
        case isFalse => exact absurd h (by simp)
        case isTrue hc0 =>
          split at h
          case isTrue => exact absurd h (by simp)
          case isFalse hr =>
            split at h
            case isFalse => exact absurd h (by simp)
            case isTrue hok =>
              rw [Option.some_inj] at h
              subst hc0
              refine ⟨(s.drop ghPrefix.length).takeWhile isRepoNameChar,
                rest2.takeWhile isRepoNameChar,
                rest2.drop (rest2.takeWhile isRepoNameChar).length,
                h.symm, ?_, ho, hr, ?_, ?_, ?_⟩
              · have hs1 : s = ghPrefix ++ s.drop ghPrefix.length :=
                  isPrefixOf_eq_append hpre
                have hs2 : s.drop ghPrefix.length =
                    (s.drop ghPrefix.length).takeWhile isRepoNameChar ++
                      ('/' :: rest2) := by
                  conv_lhs =>
                    rw [← List.takeWhile_append_dropWhile
                      (p := isRepoNameChar) (l := s.drop ghPrefix.length)]
                  rw [← drop_takeWhile_length, heq]
                have hs3 : rest2 = rest2.takeWhile isRepoNameChar ++
                    rest2.drop (rest2.takeWhile isRepoNameChar).length := by
                  rw [drop_takeWhile_length, List.takeWhile_append_dropWhile]
                rw [← h]
                conv_lhs => rw [hs1, hs2]
                conv_lhs => rw [hs3]
                simp [List.append_assoc]
              · exact fun c hc => mem_takeWhile_sat _ _ c hc
              · exact fun c hc => mem_takeWhile_sat _ _ c hc
              · intro c hc
                cases htail : rest2.drop (rest2.takeWhile isRepoNameChar).length with
                | nil => rw [htail] at hc; simp at hc
                | cons d ds =>
                  rw [htail] at hc hok
                  simp only [List.head?_cons, Option.mem_def, Option.some_inj] at hc
                  subst hc
                  simp only [Bool.not_eq_true'] at hok
                  exact hok

/-- Every URL produced by the scan is matched by the regex at some suffix
of the text. -/
theorem mem_repoScanFuel : ∀ (fuel : Nat) (s url : Chars),
    url ∈ repoScanFuel fuel s →
    ∃ pre s2, s = pre ++ s2 ∧ matchRepoHere s2 = Option.some url := by
  intro fuel
  induction fuel with
  | zero => intro s url h; simp [repoScanFuel] at h
  | succ n ih =>
    intro s url h
    cases s with
    | nil => simp [repoScanFuel] at h
    | cons c cs =>
      simp only [repoScanFuel] at h
      cases hm : matchRepoHere (c :: cs) with
      | some u =>
        rw [hm] at h
        rcases List.mem_cons.mp h with rfl | h2
        · exact ⟨[], c :: cs, rfl, hm⟩
        · obtain ⟨pre, s2, heq, hmt⟩ := ih _ _ h2
          refine ⟨(c :: cs.take (u.length - 1)) ++ pre, s2, ?_, hmt⟩
          have : (c :: cs) = c :: (cs.take (u.length - 1) ++ cs.drop (u.length - 1)) := by
            rw [List.take_append_drop]
          rw [this, heq]
          simp [List.append_assoc]
      | none =>
        rw [hm] at h
        obtain ⟨pre, s2, heq, hmt⟩ := ih _ _ h
        refine ⟨c :: pre, s2, ?_, hmt⟩
        rw [List.cons_append, ← heq]

/-- `pySplitChar` cuts off a separator-free block before a separator. -/
theorem pySplitChar_append_cons (sep : Char) : ∀ (x y : Chars),
    (∀ c ∈ x, c ≠ sep) →
    pySplitChar sep (x ++ sep :: y) = x :: pySplitChar sep y := by
  intro x
  induction x with
  | nil =>
    intro y _
    simp [pySplitChar]
  | cons a as ih =>
    intro y hx
    have ha : a ≠ sep := hx a (List.mem_cons_self a as)
    have has : ∀ c ∈ as, c ≠ sep := fun c hc => hx c (List.mem_cons_of_mem a hc)
    simp only [List.cons_append, pySplitChar, if_neg ha]
    rw [show as.append (sep :: y) = as ++ sep :: y from rfl, ih y has]

/-- `pySplitChar` of a separator-free string is that one part. -/
theorem pySplitChar_no_sep (sep : Char) : ∀ x : Chars,
    (∀ c ∈ x, c ≠ sep) → pySplitChar sep x = [x] := by
  intro x
  induction x with
  | nil => intro _; rfl
  | cons a as ih =>
    intro hx
    have ha : a ≠ sep := hx a (List.mem_cons_self a as)
    have has : ∀ c ∈ as, c ≠ sep := fun c hc => hx c (List.mem_cons_of_mem a hc)
    simp only [pySplitChar, if_neg ha, ih has]

/-- `rstrip` is the identity when the last character is not the stripped
one. -/
theorem pyRstripChar_eq_self (c : Char) : ∀ (l : Chars),
    (∀ x ∈ l.getLast?, x ≠ c) → pyRstripChar c l = l := by
  intro l hl
  unfold pyRstripChar
  cases hrev : l.reverse with
  | nil =>
    rw [List.dropWhile_nil]
    rw [← hrev, List.reverse_reverse]
  | cons a as =>
    have ha : a ≠ c := by
      apply hl
      rw [← List.head?_reverse, hrev]
      rfl
    rw [List.dropWhile_cons, if_neg (by simp [ha])]
    rw [← hrev, List.reverse_reverse]

/-- `parse_repo_links`' per-match body recovers exactly the regex groups:
stripping a trailing slash is the identity here (a repo name cannot end in
a slash) and splitting on slashes yields the host parts, the owner and the
repo. -/
theorem mkTriple_of_shape (owner repo : Chars)
    (_ho : owner ≠ []) (hr : repo ≠ [])
    (hoc : ∀ c ∈ owner, isRepoNameChar c = true)
    (hrc : ∀ c ∈ repo, isRepoNameChar c = true) :
    mkTriple (ghPrefix ++ owner ++ '/' :: repo) =
      Option.some (ghPrefix ++ owner ++ '/' :: repo, owner, repo) := by
  have hone : ∀ c ∈ owner, c ≠ '/' := by
    intro c hc he
    have := hoc c hc
    rw [he] at this
    exact absurd this (by decide)
  have hrne : ∀ c ∈ repo, c ≠ '/' := by
    intro c hc he
    have := hrc c hc
    rw [he] at this
    exact absurd this (by decide)
  obtain ⟨d, ds, hds⟩ : ∃ d ds, repo.reverse = d :: ds := by
    cases hrv : repo.reverse with
    | nil =>
      exact absurd (by simpa using congrArg List.reverse hrv) hr
    | cons d ds => exact ⟨d, ds, rfl⟩
  have hdmem : d ∈ repo := by
    have : d ∈ repo.reverse := by rw [hds]; exact List.mem_cons_self d ds
    simpa using this
  have hstrip : pyRstripChar '/' (ghPrefix ++ owner ++ '/' :: repo) =
      ghPrefix ++ owner ++ '/' :: repo := by
    apply pyRstripChar_eq_self
    intro x hx
    have hlast : (ghPrefix ++ owner ++ '/' :: repo).getLast? = Option.some d := by
      rw [← List.head?_reverse]
      simp only [List.reverse_append, List.reverse_cons, hds, List.append_assoc,
        List.cons_append, List.head?_cons]
    rw [hlast] at hx
    have hxd : d = x := by simpa using hx
    rw [← hxd]
    exact hrne d hdmem
  have hsplit : pySplitChar '/' (ghPrefix ++ owner ++ '/' :: repo) =
      [strL "https:", [], strL "github.com", owner, repo] := by
    have hshape : ghPrefix ++ owner ++ '/' :: repo =
        strL "https:" ++ '/' ::
          ('/' :: (strL "github.com" ++ '/' :: (owner ++ '/' :: repo))) := by
      simp [ghPrefix, strL, List.append_assoc]
    rw [hshape]
    rw [pySplitChar_append_cons '/' (strL "https:") _ (by decide)]
    rw [show pySplitChar '/'
        ('/' :: (strL "github.com" ++ '/' :: (owner ++ '/' :: repo))) =
        [] :: pySplitChar '/' (strL "github.com" ++ '/' :: (owner ++ '/' :: repo))
      from by simp [pySplitChar]]
    rw [pySplitChar_append_cons '/' (strL "github.com") _ (by decide)]
    rw [pySplitChar_append_cons '/' owner _ hone]
    rw [pySplitChar_no_sep '/' repo hrne]
  unfold mkTriple
  rw [hstrip, hsplit]
  simp [List.getD]

theorem mem_of_mem_dedupFirst : ∀ (l seen : List RepoRef) (x : RepoRef),
    x ∈ dedupFirst seen l → x ∈ l := by
  intro l
  induction l with
  | nil => intro seen x h; simp [dedupFirst] at h
  | cons a as ih =>
    intro seen x h
    simp only [dedupFirst] at h
    by_cases ha : a ∈ seen
    · rw [if_pos ha] at h
      exact List.mem_cons_of_mem a (ih seen x h)
    · rw [if_neg ha] at h
      rcases List.mem_cons.mp h with rfl | h2
      · exact List.mem_cons_self x as
      · exact List.mem_cons_of_mem a (ih _ x h2)

theorem dedupFirst_nodup : ∀ (l seen : List RepoRef),
    (dedupFirst seen l).Nodup ∧ ∀ x ∈ dedupFirst seen l, x ∉ seen := by
  intro l
  induction l with
  | nil =>
    intro seen
    refine ⟨by simp [dedupFirst], by simp [dedupFirst]⟩
  | cons a as ih =>
    intro seen
    simp only [dedupFirst]
    by_cases ha : a ∈ seen
    · rw [if_pos ha]; exact ih seen
    · rw [if_neg ha]
      obtain ⟨hnd, hnotin⟩ := ih (a :: seen)
      refine ⟨List.nodup_cons.mpr ⟨?_, hnd⟩, ?_⟩
      · intro hmem
        exact (hnotin a hmem) (List.mem_cons_self a seen)
      · intro x hx
        rcases List.mem_cons.mp hx with rfl | h2
        · exact ha
        · intro hxseen
          exact (hnotin x h2) (List.mem_cons_of_mem a hxseen)

/-- C7: every reference returned by the link parser has the exact
repository-URL shape — the GitHub host, a nonempty owner and a nonempty
repo over word characters, dots and hyphens — and occurs in the text at a
position where the next character (if any) is not a path-segment
character; the returned list has no duplicates; and the subpath URL
`https://github.com/acme/widget/issues/5` yields no reference at all.
The parser is a pure function, so it has no side effects. -/
theorem c7_parser_sound :
    (∀ (text : Chars) (r : RepoRef), r ∈ parseRepoLinks text →
      r.1 = ghPrefix ++ r.2.1 ++ '/' :: r.2.2 ∧
      r.2.1 ≠ [] ∧ r.2.2 ≠ [] ∧
      (∀ c ∈ r.2.1, isRepoNameChar c = true) ∧
      (∀ c ∈ r.2.2, isRepoNameChar c = true) ∧
      (∃ pre post, text = pre ++ r.1 ++ post ∧
        ∀ c ∈ post.head?, isLookChar c = false)) ∧
    (∀ text : Chars, (parseRepoLinks text).Nodup) ∧
    parseRepoLinks (strL "https://github.com/acme/widget/issues/5") = [] := by
  refine ⟨?_, ?_, by decide⟩
  · intro text r hr
    unfold parseRepoLinks at hr
    have hr2 := mem_of_mem_dedupFirst _ _ _ hr
    obtain ⟨url, hurlmem, hmk⟩ := List.mem_filterMap.mp hr2
    rw [show repoScan text = repoScanFuel text.length text from rfl] at hurlmem
    obtain ⟨pre, s2, htext, hmatch⟩ := mem_repoScanFuel _ _ _ hurlmem
    obtain ⟨owner, repo, tail, hurl, hs2, ho, hrp, hoc, hrc, hlook⟩ :=
      matchRepoHere_sound hmatch
    rw [hurl, mkTriple_of_shape owner repo ho hrp hoc hrc, Option.some_inj] at hmk
    subst hmk
    refine ⟨rfl, ho, hrp, hoc, hrc, pre, tail, ?_, hlook⟩
    rw [htext, hs2, hurl]
    simp [List.append_assoc]
  · intro text
    unfold parseRepoLinks
    exact (dedupFirst_nodup _ _).1

/-- Witness for C7 at a concrete text containing one repository link. -/
theorem c7_parser_sound_witness :
    ((strL "https://github.com/x/y", strL "x", strL "y") ∈
      parseRepoLinks (strL "see https://github.com/x/y now")) ∧
    (strL "https://github.com/x/y", strL "x", strL "y").1 =
      ghPrefix ++ (strL "https://github.com/x/y", strL "x", strL "y").2.1 ++
        '/' :: (strL "https://github.com/x/y", strL "x", strL "y").2.2 :=
  ⟨by decide,
    (c7_parser_sound.1 (strL "see https://github.com/x/y now") _ (by decide)).1⟩
